import Mathlib

/-!
Shallow embedding of the rayonzip ZIP archive builder (src/lib.rs).

Bytes are modelled as natural numbers below 256, byte streams as lists of
naturals.  Rust machine integers are modelled as naturals with explicit
`% 2^w` truncation at every `as` cast, mirroring the source.  The output
destination is modelled as the list of bytes written so far; the Rust
`stream_position()` of a destination that starts empty is the length of
that list (offsets are measured from byte 0, as the spec states).
-/

namespace Rayonzip

/-- Little-endian encoding of the low 16 bits of a natural number,
as produced by Rust u16::to_le_bytes. -/
def u16le (n : Nat) : List Nat := [n % 256, n / 256 % 256]

/-- Little-endian encoding of the low 32 bits of a natural number,
as produced by Rust u32::to_le_bytes. -/
def u32le (n : Nat) : List Nat :=
  [n % 256, n / 256 % 256, n / 65536 % 256, n / 16777216 % 256]

/-- Little-endian encoding of the low 64 bits of a natural number, as
produced by Rust usize::to_le_bytes on the 64-bit targets the crate is
built for. -/
def u64le (n : Nat) : List Nat :=
  [n % 256, n / 256 % 256, n / 65536 % 256, n / 16777216 % 256,
   n / 4294967296 % 256, n / 1099511627776 % 256,
   n / 281474976710656 % 256, n / 72057594037927936 % 256]

/-- The numeric value of the first two bytes of a list read as a
little-endian 16-bit field. -/
def leVal16 (bs : List Nat) : Nat := bs.getD 0 0 + 256 * bs.getD 1 0

/-- The numeric value of the first four bytes of a list read as a
little-endian 32-bit field. -/
def leVal32 (bs : List Nat) : Nat :=
  bs.getD 0 0 + 256 * bs.getD 1 0 + 65536 * bs.getD 2 0 + 16777216 * bs.getD 3 0

/-- Wrapping 32-bit subtraction, the release-mode semantics of Rust u32
subtraction; for a ≥ b with both below 2^32 it is plain subtraction. -/
def u32sub (a b : Nat) : Nat := (a + (2 ^ 32 - b % 2 ^ 32)) % 2 ^ 32

def VERSION_NEEDED_TO_EXTRACT : Nat := 20

def VERSION_MADE_BY : Nat := 0x033F

def FILE_RECORD_SIGNATURE : Nat := 0x04034B50

def DIRECTORY_ENTRY_SIGNATURE : Nat := 0x02014B50

def END_OF_CENTRAL_DIR_SIGNATURE : Nat := 0x06054B50

/-- `CompressionType` from src/lib.rs, a repr(u16) enum. -/
inductive CompressionType where
  | Stored
  | Deflate
deriving DecidableEq, Repr

/-- The u16 discriminant of `CompressionType` (`self.compression_type as u16`
in the source): Stored = 0, Deflate = 8. -/
def CompressionType.code : CompressionType → Nat
  | .Stored => 0
  | .Deflate => 8

/-- `ZipFile` from src/lib.rs.  The filename is the UTF-8 byte sequence of
the Rust String; `crc` and `uncompressed_size` are u32 fields. -/
structure ZipFile where
  compression_type : CompressionType
  crc : Nat
  uncompressed_size : Nat
  filename : List Nat
  data : List Nat
  external_file_attributes : Nat
deriving DecidableEq, Repr

instance : Inhabited ZipFile :=
  ⟨⟨CompressionType.Stored, 0, 0, [], [], 0⟩⟩

/-- `ZipFile::to_bytes_filerecord`: the bytes of one local file record, in
the order of the source's write_all calls.  `self.data.len() as u32` and
`self.filename.len() as u16` are the two truncating casts of the source. -/
def ZipFile.to_bytes_filerecord (f : ZipFile) : List Nat :=
  u32le FILE_RECORD_SIGNATURE ++
  u16le VERSION_NEEDED_TO_EXTRACT ++
  u16le 0 ++
  u16le f.compression_type.code ++
  u16le 0 ++
  u16le 0 ++
  u32le f.crc ++
  u32le (f.data.length % 2 ^ 32) ++
  u32le f.uncompressed_size ++
  u16le (f.filename.length % 2 ^ 16) ++
  u16le 0 ++
  f.filename ++
  f.data

/-- `ZipFile::to_bytes_direntry`: the bytes of one central-directory record
for a given local-header offset, in the order of the source's write_all
calls. -/
def ZipFile.to_bytes_direntry (f : ZipFile) (local_header_offset : Nat) : List Nat :=
  u32le DIRECTORY_ENTRY_SIGNATURE ++
  u16le VERSION_MADE_BY ++
  u16le VERSION_NEEDED_TO_EXTRACT ++
  u16le 0 ++
  u16le f.compression_type.code ++
  u16le 0 ++
  u16le 0 ++
  u32le f.crc ++
  u32le (f.data.length % 2 ^ 32) ++
  u32le f.uncompressed_size ++
  u16le (f.filename.length % 2 ^ 16) ++
  u16le 0 ++
  u16le 0 ++
  u16le 0 ++
  u16le 0 ++
  u32le f.external_file_attributes ++
  u32le local_header_offset ++
  f.filename

/-- `ZipFile::directory`: backslashes are replaced by slashes, then a
trailing slash is appended unless the name already ends in a slash or a
backslash (the source checks both even though the replacement has already
removed every backslash).  47 is the byte of a slash and 92 of a
backslash. -/
def ZipFile.directory (name : List Nat) : ZipFile :=
  let n1 := name.map (fun c => if c = 92 then 47 else c)
  let n2 := if n1.getLast? = some 47 ∨ n1.getLast? = some 92 then n1 else n1 ++ [47]
  { compression_type := CompressionType.Stored
    crc := 0
    uncompressed_size := 0
    filename := n2
    data := []
    external_file_attributes := 0o40755 <<< 16 }

/-- One bit-step of the reflected CRC-32 division.
Modelled from the spec: CRC-32/ISO-HDLC is an external primitive (the crc32
crate behind flate2's CrcReader); this is its standard definition with the
reflected polynomial 0xEDB88320. -/
def crc32step (c : Nat) : Nat :=
  if c % 2 = 1 then (c / 2) ^^^ 0xEDB88320 else c / 2

/-- Folding one input byte into a running CRC-32 state.
Modelled from the spec: CRC-32/ISO-HDLC, external checksum primitive. -/
def crc32update (c b : Nat) : Nat := crc32step^[8] (c ^^^ b % 256)

/-- CRC-32/ISO-HDLC of a byte sequence: init 0xFFFFFFFF, final xor
0xFFFFFFFF.  Modelled from the spec: the external checksum primitive that
`CrcReader::crc().sum()` returns over every byte read through it; the
encoder's read_to_end pulls the whole input through the reader, so the
recorded checksum covers exactly the original uncompressed bytes. -/
def crc32 (data : List Nat) : Nat :=
  (data.foldl crc32update 0xFFFFFFFF) ^^^ 0xFFFFFFFF

/-- `ZipArchive::slice_to_archive_file`.  DEFLATE at the fixed level
`Compression::new(9)` is an external primitive per the spec, passed here as
the function argument `deflate`; every call site of the crate uses this one
fixed compressor.  `slice.len() as u32` is the source's truncating cast. -/
def slice_to_archive_file (deflate : List Nat → List Nat)
    (slice : List Nat) (archived_name : List Nat) : ZipFile :=
  { compression_type := CompressionType.Deflate
    crc := crc32 slice
    uncompressed_size := slice.length % 2 ^ 32
    filename := archived_name
    data := deflate slice
    external_file_attributes := 0o100644 <<< 16 }

/-- `ZipArchive::fs_file_to_archive_file`.  The opened file's byte contents
are modelled as the list `contents`; `metadata().len()` is its length and
`as u32` the source's truncating cast. -/
def fs_file_to_archive_file (deflate : List Nat → List Nat)
    (contents : List Nat) (archived_name : List Nat) : ZipFile :=
  { compression_type := CompressionType.Deflate
    crc := crc32 contents
    uncompressed_size := contents.length % 2 ^ 32
    filename := archived_name
    data := deflate contents
    external_file_attributes := 0o100644 <<< 16 }

/-- Pass 1 of `ZipArchive::write`, started at stream position `pos`:
returns the bytes written and the list of recorded offsets.  Each loop
iteration pushes `stream_position() as u32` and then writes one local file
record. -/
def pass1 : Nat → List ZipFile → List Nat × List Nat
  | _, [] => ([], [])
  | pos, f :: rest =>
    let r := ZipFile.to_bytes_filerecord f
    let p := pass1 (pos + r.length) rest
    (r ++ p.1, pos % 2 ^ 32 :: p.2)

/-- The real (untruncated) byte offset at which entry `i`'s local file
record starts in pass 1: the total length of the preceding records. -/
def localOffset (files : List ZipFile) (i : Nat) : Nat :=
  (((files.take i).map ZipFile.to_bytes_filerecord).flatten).length

/-- Pass 2 of `ZipArchive::write`: one central-directory record per entry,
in pass-1 order, each given the offset recorded for it in pass 1
(`files.iter().zip(offsets)` in the source). -/
def centralRecords (files : List ZipFile) : List (List Nat) :=
  (files.zip (pass1 0 files).2).map (fun fo => ZipFile.to_bytes_direntry fo.1 fo.2)

/-- The end-of-central-directory trailer of `ZipArchive::write`.  The two
entry-count fields are written by `files.len().to_le_bytes()`, i.e. the
eight bytes of a usize, exactly as in the source. -/
def trailer (numEntries central_dir_offset central_dir_start : Nat) : List Nat :=
  u32le END_OF_CENTRAL_DIR_SIGNATURE ++
  u16le 0 ++
  u16le 0 ++
  u64le numEntries ++
  u64le numEntries ++
  u32le (u32sub central_dir_start central_dir_offset) ++
  u32le central_dir_offset ++
  u16le 0

/-- The ordered list of write_all payloads `ZipArchive::write` sends to the
destination: the pass-1 local records, the pass-2 central records, then the
trailer.  `central_dir_offset` and `central_dir_start` are the stream
positions before and after pass 2, each cast `as u32`. -/
def chunksOf (files : List ZipFile) : List (List Nat) :=
  let body := (pass1 0 files).1
  let central_dir_offset := body.length % 2 ^ 32
  let central := (centralRecords files).flatten
  let central_dir_start := (body.length + central.length) % 2 ^ 32
  files.map ZipFile.to_bytes_filerecord ++
  centralRecords files ++
  [trailer files.length central_dir_offset central_dir_start]

/-- `ZipArchive::write` on a destination that starts at position 0: the
full byte stream of the archive. -/
def ZipArchive.write (files : List ZipFile) : List Nat :=
  (chunksOf files).flatten

/-- A fallible destination: the bytes accepted so far and the byte budget
after which the device fails.  Models an I/O fault at a fixed position. -/
structure Dest where
  written : List Nat
  budget : Nat
deriving DecidableEq, Repr

/-- One `write_all` call on the fallible destination: appends the payload
or fails. -/
def write_all (d : Dest) (bs : List Nat) : Except Unit Dest :=
  if d.written.length + bs.length ≤ d.budget then
    Except.ok { written := d.written ++ bs, budget := d.budget }
  else
    Except.error ()

/-- Issues a sequence of write_all calls, stopping at the first failure:
a destination-write failure aborts everything after it. -/
def writeAllList : Dest → List (List Nat) → Except Unit Dest
  | d, [] => Except.ok d
  | d, c :: rest =>
    match write_all d c with
    | Except.ok d2 => writeAllList d2 rest
    | Except.error e => Except.error e

/-- `ZipArchive::write` against the fallible destination: the same payloads
as `ZipArchive.write`, in the same order, each sent by write_all. -/
def writeE (files : List ZipFile) (d : Dest) : Except Unit Dest :=
  writeAllList d (chunksOf files)

/-- Modelled from the spec: the dispatcher state, section 4.3/4.4.  The
rayon pool and the std mpsc channel are external collaborators; `pending`
holds the entries of tasks submitted but not yet completed (each add_* call
contributes exactly one task) and `channel` the completions delivered so
far, in arrival order. -/
structure DispatchState where
  pending : List ZipFile
  channel : List ZipFile
deriving DecidableEq, Repr

/-- Modelled from the spec: one completion event.  Any still-pending task
(chosen by index, i.e. in any order) finishes and sends its entry on the
channel; an out-of-range index is not a possible event. -/
def DispatchState.step (s : DispatchState) (i : Nat) : Option DispatchState :=
  if h : i < s.pending.length then
    some { pending := s.pending.eraseIdx i
           channel := s.channel ++ [s.pending.get ⟨i, h⟩] }
  else
    none

/-- Modelled from the spec: running a schedule of completion events. -/
def DispatchState.run : DispatchState → List Nat → Option DispatchState
  | s, [] => some s
  | s, i :: rest =>
    match s.step i with
    | some s2 => DispatchState.run s2 rest
    | none => none

/-- Modelled from the spec: the accumulator's drain at finalize.  The
producer side is closed, every completion is collected, and serialization
only starts once no task is in flight (`pending = []`); the result is the
entry list handed to the serializer. -/
def drainAll (tasks : List ZipFile) (sched : List Nat) : Option (List ZipFile) :=
  match DispatchState.run { pending := tasks, channel := [] } sched with
  | some s => if s.pending = [] then some s.channel else none
  | none => none

/-- The directory-name normalization exactly as claim C7 words it: replace
every backslash by a slash, then append a trailing slash when missing and
do not duplicate it when present. -/
def claimedDirectoryName (name : List Nat) : List Nat :=
  let m := name.map (fun c => if c = 92 then 47 else c)
  if m.getLast? = some 47 then m else m ++ [47]

theorem u32le_mod (n : Nat) : u32le (n % 2 ^ 32) = u32le n := by
  simp only [u32le, List.cons.injEq, and_true]
  omega

theorem u16le_mod (n : Nat) : u16le (n % 2 ^ 16) = u16le n := by
  simp only [u16le, List.cons.injEq, and_true]
  omega

theorem leVal32_u32le (n : Nat) : leVal32 (u32le n) = n % 2 ^ 32 := by
  simp only [leVal32, u32le, List.getD_cons_zero, List.getD_cons_succ]
  omega

theorem leVal16_u16le (n : Nat) : leVal16 (u16le n) = n % 2 ^ 16 := by
  simp only [leVal16, u16le, List.getD_cons_zero, List.getD_cons_succ]
  omega

theorem u32sub_spec (a b : Nat) (hba : b ≤ a) (ha : a < 2 ^ 32) :
    u32sub (a % 2 ^ 32) (b % 2 ^ 32) = a - b := by
  simp only [u32sub]
  omega

theorem pass1_fst (pos : Nat) (files : List ZipFile) :
    (pass1 pos files).1 = (files.map ZipFile.to_bytes_filerecord).flatten := by
  induction files generalizing pos with
  | nil => rfl
  | cons f rest ih => simp [pass1, ih]

theorem pass1_snd_length (pos : Nat) (files : List ZipFile) :
    (pass1 pos files).2.length = files.length := by
  induction files generalizing pos with
  | nil => rfl
  | cons f rest ih => simp [pass1, ih]

theorem localOffset_cons (f : ZipFile) (rest : List ZipFile) (i : Nat) :
    localOffset (f :: rest) (i + 1) =
      (ZipFile.to_bytes_filerecord f).length + localOffset rest i := by
  simp [localOffset, List.take_succ_cons]

theorem pass1_snd_getD (files : List ZipFile) (pos i : Nat) (hi : i < files.length) :
    (pass1 pos files).2.getD i 0 = (pos + localOffset files i) % 2 ^ 32 := by
  induction files generalizing pos i with
  | nil => simp at hi
  | cons f rest ih =>
    cases i with
    | zero => simp [pass1, localOffset]
    | succ n =>
      have hn : n < rest.length := by simpa using hi
      simp only [pass1, List.getD_cons_succ]
      rw [ih _ _ hn, localOffset_cons]
      omega

theorem zipmap_direntry_getD (files : List ZipFile) (offs : List Nat) (i : Nat)
    (hif : i < files.length) (hio : i < offs.length) :
    ((files.zip offs).map (fun fo => ZipFile.to_bytes_direntry fo.1 fo.2)).getD i [] =
      ZipFile.to_bytes_direntry (files.getD i default) (offs.getD i 0) := by
  induction files generalizing offs i with
  | nil => simp at hif
  | cons f rest ih =>
    cases offs with
    | nil => simp at hio
    | cons o os =>
      cases i with
      | zero => simp [List.zip_cons_cons]
      | succ n =>
        have hnf : n < rest.length := by simpa using hif
        have hno : n < os.length := by simpa using hio
        simpa [List.zip_cons_cons] using ih os n hnf hno

theorem flatten_map_drop (files : List ZipFile) (i : Nat) (hi : i < files.length) :
    ((files.map ZipFile.to_bytes_filerecord).flatten).drop (localOffset files i) =
      ZipFile.to_bytes_filerecord (files.getD i default) ++
        ((files.drop (i + 1)).map ZipFile.to_bytes_filerecord).flatten := by
  induction files generalizing i with
  | nil => simp at hi
  | cons f rest ih =>
    cases i with
    | zero => simp [localOffset]
    | succ n =>
      have hn : n < rest.length := by simpa using hi
      simp only [List.map_cons, List.flatten_cons, localOffset_cons, List.drop_succ_cons,
        List.getD_cons_succ]
      rw [← List.drop_drop, List.drop_left]
      exact ih n hn

theorem filerecord_append_take4 (f : ZipFile) (X : List Nat) :
    ((ZipFile.to_bytes_filerecord f ++ X).take 4) = u32le FILE_RECORD_SIGNATURE := by
  simp only [ZipFile.to_bytes_filerecord, List.append_assoc]
  exact List.take_left' rfl

theorem direntry_drop42 (f : ZipFile) (off : Nat) :
    (ZipFile.to_bytes_direntry f off).drop 42 = u32le off ++ f.filename := by
  simp only [ZipFile.to_bytes_direntry, u32le, u16le, List.cons_append, List.nil_append,
    List.append_assoc, List.drop_succ_cons, List.drop_zero]

theorem writeAllList_spec (chunks : List (List Nat)) (pre : List Nat) (b : Nat)
    (h : pre.length ≤ b) :
    writeAllList { written := pre, budget := b } chunks =
      if pre.length + chunks.flatten.length ≤ b then
        Except.ok { written := pre ++ chunks.flatten, budget := b }
      else Except.error () := by
  induction chunks generalizing pre with
  | nil => simp [writeAllList, h]
  | cons c rest ih =>
    by_cases hc : pre.length + c.length ≤ b
    · have hstep : writeAllList { written := pre, budget := b } (c :: rest) =
          writeAllList { written := pre ++ c, budget := b } rest := by
        simp [writeAllList, write_all, hc]
      rw [hstep, ih (pre ++ c) (by simp only [List.length_append]; omega)]
      simp only [List.flatten_cons, List.length_append, List.append_assoc, Nat.add_assoc]
    · have hstep : writeAllList { written := pre, budget := b } (c :: rest) =
          Except.error () := by
        simp [writeAllList, write_all, hc]
      rw [hstep, if_neg (by simp only [List.flatten_cons, List.length_append]; omega)]

theorem get_cons_eraseIdx_perm (l : List ZipFile) (i : Nat) (h : i < l.length) :
    List.Perm (l.get ⟨i, h⟩ :: l.eraseIdx i) l := by
  induction l generalizing i with
  | nil => simp at h
  | cons a t ih =>
    cases i with
    | zero => simp
    | succ n =>
      have hn : n < t.length := by simpa using h
      simp only [List.get_cons_succ, List.eraseIdx_cons_succ]
      exact (List.Perm.swap a _ _).trans ((ih n hn).cons a)

theorem run_perm (sched : List Nat) (s s2 : DispatchState)
    (h : DispatchState.run s sched = some s2) :
    List.Perm (s2.pending ++ s2.channel) (s.pending ++ s.channel) := by
  induction sched generalizing s with
  | nil =>
    simp only [DispatchState.run, Option.some.injEq] at h
    rw [h]
  | cons i rest ih =>
    simp only [DispatchState.run] at h
    cases hstep : s.step i with
    | none => rw [hstep] at h; simp at h
    | some s1 =>
      rw [hstep] at h
      refine (ih s1 h).trans ?_
      simp only [DispatchState.step] at hstep
      split at hstep
      case isTrue hlt =>
        cases hstep
        have h1 : List.Perm
            ((s.pending.eraseIdx i ++ s.channel) ++ [s.pending.get ⟨i, hlt⟩])
            (s.pending.get ⟨i, hlt⟩ :: (s.pending.eraseIdx i ++ s.channel)) :=
          List.perm_append_singleton _ _
        have h2 : List.Perm
            ((s.pending.get ⟨i, hlt⟩ :: s.pending.eraseIdx i) ++ s.channel)
            (s.pending ++ s.channel) :=
          (get_cons_eraseIdx_perm s.pending i hlt).append_right s.channel
        rw [show s.pending.eraseIdx i ++ (s.channel ++ [s.pending.get ⟨i, hlt⟩]) =
            (s.pending.eraseIdx i ++ s.channel) ++ [s.pending.get ⟨i, hlt⟩] from
          (List.append_assoc _ _ _).symm]
        exact h1.trans h2
      case isFalse => simp at hstep

/-- Claim C3: the local file record emitted in pass 1 is exactly the
little-endian concatenation of signature 0x04034B50, version-needed 20,
flags 0, the method code (0 for Stored, 8 for Deflate), time 0, date 0,
crc32, compressed size, uncompressed size, filename length, extra-field
length 0, the filename bytes, then the compressed data. -/
theorem c3_local_record_layout :
    (∀ f : ZipFile, ZipFile.to_bytes_filerecord f =
      u32le 0x04034B50 ++ u16le 20 ++ u16le 0 ++ u16le f.compression_type.code ++
      u16le 0 ++ u16le 0 ++ u32le f.crc ++ u32le f.data.length ++
      u32le f.uncompressed_size ++ u16le f.filename.length ++ u16le 0 ++
      f.filename ++ f.data) ∧
    CompressionType.code CompressionType.Stored = 0 ∧
    CompressionType.code CompressionType.Deflate = 8 := by
  refine ⟨fun f => ?_, rfl, rfl⟩
  simp only [ZipFile.to_bytes_filerecord, u32le_mod, u16le_mod,
    FILE_RECORD_SIGNATURE, VERSION_NEEDED_TO_EXTRACT]

/-- Claim C4: pass 2 emits one central-directory record per entry, in
pass-1 order (the zip with the offset list keeps the entry list intact),
consisting exactly of signature 0x02014B50, the fixed version-made-by tag
0x033F, version-needed 20, flags 0, method/time/date/crc/sizes/filename
length taken from the same entry fields as the pass-1 record, zero
extra/comment/disk/internal-attribute fields, the external attributes
(0o100644 <<< 16 for regular files, 0o40755 <<< 16 for directories, i.e.
the UNIX mode bits in the upper 16 bits), the pass-1 offset, then the
filename bytes. -/
theorem c4_central_record_layout :
    (∀ (f : ZipFile) (off : Nat), ZipFile.to_bytes_direntry f off =
      u32le 0x02014B50 ++ u16le 0x033F ++ u16le 20 ++ u16le 0 ++
      u16le f.compression_type.code ++ u16le 0 ++ u16le 0 ++ u32le f.crc ++
      u32le f.data.length ++ u32le f.uncompressed_size ++ u16le f.filename.length ++
      u16le 0 ++ u16le 0 ++ u16le 0 ++ u16le 0 ++ u32le f.external_file_attributes ++
      u32le off ++ f.filename) ∧
    (∀ (deflate : List Nat → List Nat) (s n : List Nat),
      (slice_to_archive_file deflate s n).external_file_attributes = 0o100644 * 2 ^ 16) ∧
    (∀ (deflate : List Nat → List Nat) (c n : List Nat),
      (fs_file_to_archive_file deflate c n).external_file_attributes = 0o100644 * 2 ^ 16) ∧
    (∀ name : List Nat,
      (ZipFile.directory name).external_file_attributes = 0o40755 * 2 ^ 16) ∧
    (∀ files : List ZipFile, (files.zip (pass1 0 files).2).map Prod.fst = files) := by
  refine ⟨fun f off => ?_, fun _ _ _ => by simp [slice_to_archive_file, Nat.shiftLeft_eq],
    fun _ _ _ => by simp [fs_file_to_archive_file, Nat.shiftLeft_eq],
    fun name => by simp [ZipFile.directory, Nat.shiftLeft_eq],
    fun files => List.map_fst_zip _ _ (le_of_eq (pass1_snd_length 0 files).symm)⟩
  simp only [ZipFile.to_bytes_direntry, u32le_mod, u16le_mod,
    DIRECTORY_ENTRY_SIGNATURE, VERSION_MADE_BY, VERSION_NEEDED_TO_EXTRACT]

/-- Claim C6: every entry produced by the compressor constructors records
the CRC-32/ISO-HDLC checksum of the original uncompressed bytes, the exact
uncompressed length (for sources shorter than 2^32 bytes, the spec's
no-ZIP64 invariant), the Deflate compression kind, and as compressed data
the output of the single fixed deflate primitive on the original bytes. -/
theorem c6_compressor_metadata (deflate : List Nat → List Nat) (src name : List Nat) :
    ((slice_to_archive_file deflate src name).crc = crc32 src ∧
     (src.length < 2 ^ 32 →
       (slice_to_archive_file deflate src name).uncompressed_size = src.length) ∧
     (slice_to_archive_file deflate src name).compression_type = CompressionType.Deflate ∧
     (slice_to_archive_file deflate src name).data = deflate src) ∧
    ((fs_file_to_archive_file deflate src name).crc = crc32 src ∧
     (src.length < 2 ^ 32 →
       (fs_file_to_archive_file deflate src name).uncompressed_size = src.length) ∧
     (fs_file_to_archive_file deflate src name).compression_type = CompressionType.Deflate ∧
     (fs_file_to_archive_file deflate src name).data = deflate src) :=
  ⟨⟨rfl, fun h => Nat.mod_eq_of_lt h, rfl, rfl⟩,
   ⟨rfl, fun h => Nat.mod_eq_of_lt h, rfl, rfl⟩⟩

theorem c6_compressor_metadata_witness :
    [104, 101, 108, 108, 111].length < 2 ^ 32 ∧
    (slice_to_archive_file id [104, 101, 108, 108, 111] [104]).uncompressed_size = 5 :=
  ⟨by decide, (c6_compressor_metadata id [104, 101, 108, 108, 111] [104]).1.2.1 (by decide)⟩

/-- Claim C7: a directory entry's filename is the input with every
backslash replaced by a slash and a trailing slash appended when missing
and not duplicated when present; it ends with a slash, contains no
backslash, and the entry has crc 0, uncompressed size 0, empty data,
Stored compression and the directory UNIX mode bits 0o40755 in the upper
16 bits of the external attributes. -/
theorem c7_directory_entry (name : List Nat) :
    (ZipFile.directory name).filename = claimedDirectoryName name ∧
    (ZipFile.directory name).filename.getLast? = some 47 ∧
    (ZipFile.directory name).filename.count 92 = 0 ∧
    (ZipFile.directory name).crc = 0 ∧
    (ZipFile.directory name).uncompressed_size = 0 ∧
    (ZipFile.directory name).data = [] ∧
    (ZipFile.directory name).compression_type = CompressionType.Stored ∧
    (ZipFile.directory name).external_file_attributes = 0o40755 * 2 ^ 16 := by
  have hno92 : ∀ b ∈ name.map (fun c => if c = 92 then 47 else c), b ≠ 92 := by
    intro b hb
    obtain ⟨c, _, rfl⟩ := List.mem_map.mp hb
    by_cases hcc : c = 92 <;> simp [hcc]
  have hlast92 : ¬ (name.map (fun c => if c = 92 then 47 else c)).getLast? = some 92 :=
    fun hcontra => hno92 92 (List.mem_of_getLast?_eq_some hcontra) rfl
  by_cases h47 : (name.map (fun c => if c = 92 then 47 else c)).getLast? = some 47
  · refine ⟨?_, ?_, ?_, rfl, rfl, rfl, rfl, by simp [ZipFile.directory, Nat.shiftLeft_eq]⟩
    · simp only [ZipFile.directory, claimedDirectoryName]
      rw [if_pos (Or.inl h47), if_pos h47]
    · simp only [ZipFile.directory]
      rw [if_pos (Or.inl h47)]
      exact h47
    · simp only [ZipFile.directory]
      rw [if_pos (Or.inl h47)]
      exact List.count_eq_zero.mpr (fun hmem => hno92 92 hmem rfl)
  · refine ⟨?_, ?_, ?_, rfl, rfl, rfl, rfl, by simp [ZipFile.directory, Nat.shiftLeft_eq]⟩
    · simp only [ZipFile.directory, claimedDirectoryName]
      rw [if_neg (fun hor => hor.elim h47 hlast92), if_neg h47]
    · simp only [ZipFile.directory]
      rw [if_neg (fun hor => hor.elim h47 hlast92)]
      exact List.getLast?_concat _
    · simp only [ZipFile.directory]
      rw [if_neg (fun hor => hor.elim h47 hlast92)]
      refine List.count_eq_zero.mpr ?_
      intro hmem
      rcases List.mem_append.mp hmem with hm | hm
      · exact hno92 92 hm rfl
      · simp at hm

/-- Claim C10: every length field is an unchecked wrapping truncation: the
filename-length field of both record kinds is the filename length modulo
2^16 while the record still carries the full filename bytes, the
compressed-size field is the data length modulo 2^32, and the recorded
uncompressed size is the source length modulo 2^32, with no error path. -/
theorem c10_truncating_casts :
    (∀ f : ZipFile, leVal16 (((ZipFile.to_bytes_filerecord f).drop 26).take 2) =
      f.filename.length % 2 ^ 16) ∧
    (∀ f : ZipFile,
      ((ZipFile.to_bytes_filerecord f).drop 30).take f.filename.length = f.filename) ∧
    (∀ f : ZipFile, leVal32 (((ZipFile.to_bytes_filerecord f).drop 18).take 4) =
      f.data.length % 2 ^ 32) ∧
    (∀ (f : ZipFile) (off : Nat),
      leVal16 (((ZipFile.to_bytes_direntry f off).drop 28).take 2) =
        f.filename.length % 2 ^ 16) ∧
    (∀ (f : ZipFile) (off : Nat),
      (ZipFile.to_bytes_direntry f off).drop 46 = f.filename) ∧
    (∀ (deflate : List Nat → List Nat) (s n : List Nat),
      (slice_to_archive_file deflate s n).uncompressed_size = s.length % 2 ^ 32) ∧
    (∀ (deflate : List Nat → List Nat) (c n : List Nat),
      (fs_file_to_archive_file deflate c n).uncompressed_size = c.length % 2 ^ 32) := by
  refine ⟨fun f => ?_, fun f => ?_, fun f => ?_, fun f off => ?_, fun f off => ?_,
    fun _ _ _ => rfl, fun _ _ _ => rfl⟩
  · simp only [ZipFile.to_bytes_filerecord, u32le, u16le, List.cons_append, List.nil_append,
      List.drop_succ_cons, List.drop_zero, List.take_succ_cons, List.take_zero,
      leVal16, List.getD_cons_zero, List.getD_cons_succ]
    omega
  · simp only [ZipFile.to_bytes_filerecord, u32le, u16le, List.cons_append, List.nil_append,
      List.drop_succ_cons, List.drop_zero]
    exact List.take_left _ _
  · simp only [ZipFile.to_bytes_filerecord, u32le, u16le, List.cons_append, List.nil_append,
      List.drop_succ_cons, List.drop_zero, List.take_succ_cons, List.take_zero,
      leVal32, List.getD_cons_zero, List.getD_cons_succ]
    omega
  · simp only [ZipFile.to_bytes_direntry, u32le, u16le, List.cons_append, List.nil_append,
      List.drop_succ_cons, List.drop_zero, List.take_succ_cons, List.take_zero,
      leVal16, List.getD_cons_zero, List.getD_cons_succ]
    omega
  · simp only [ZipFile.to_bytes_direntry, u32le, u16le, List.cons_append, List.nil_append,
      List.drop_succ_cons, List.drop_zero]

/-- Claim C2: for every accumulated entry, the 32-bit local-header-offset
value stored in its central-directory record (bytes 42..45 of that record)
is the real byte offset, measured from byte 0, at which pass 1 wrote that
entry's local record, and the local record signature does sit at that
offset in the pass-1 output (for offsets below 2^32, i.e. within the
spec's no-ZIP64 scope). -/
theorem c2_central_offset_field (files : List ZipFile) (i : Nat)
    (hi : i < files.length) (hoff : localOffset files i < 2 ^ 32) :
    leVal32 ((((centralRecords files).getD i []).drop 42).take 4) = localOffset files i ∧
    ((pass1 0 files).1.drop (localOffset files i)).take 4 = u32le FILE_RECORD_SIGNATURE := by
  constructor
  · have h1 : (centralRecords files).getD i [] =
        ZipFile.to_bytes_direntry (files.getD i default) ((pass1 0 files).2.getD i 0) := by
      unfold centralRecords
      exact zipmap_direntry_getD files _ i hi (by rw [pass1_snd_length]; exact hi)
    rw [h1, direntry_drop42, List.take_left' (by simp [u32le]), leVal32_u32le,
      pass1_snd_getD files 0 i hi]
    omega
  · rw [pass1_fst, flatten_map_drop files i hi, filerecord_append_take4]

theorem c2_central_offset_field_witness :
    1 < [ZipFile.directory [97], ZipFile.directory [98]].length ∧
    localOffset [ZipFile.directory [97], ZipFile.directory [98]] 1 < 2 ^ 32 ∧
    (leVal32 ((((centralRecords [ZipFile.directory [97], ZipFile.directory [98]]).getD 1
          []).drop 42).take 4) =
        localOffset [ZipFile.directory [97], ZipFile.directory [98]] 1 ∧
      ((pass1 0 [ZipFile.directory [97], ZipFile.directory [98]]).1.drop
          (localOffset [ZipFile.directory [97], ZipFile.directory [98]] 1)).take 4 =
        u32le FILE_RECORD_SIGNATURE) :=
  ⟨by decide, by decide,
    c2_central_offset_field [ZipFile.directory [97], ZipFile.directory [98]] 1
      (by decide) (by decide)⟩

/-- Claim C5: the trailer's central-directory-size field is the byte length
of the pass-2 output, which is the stream position after pass 2 minus the
one before it, and the central-directory-start-offset field is the stream
position before pass 2, the total byte length of all pass-1 local records
(whenever the archive fits the 32-bit offsets of the no-ZIP64 format). -/
theorem c5_trailer_size_and_offset (files : List ZipFile)
    (h : ((files.map ZipFile.to_bytes_filerecord).flatten).length +
      ((centralRecords files).flatten).length < 2 ^ 32) :
    ZipArchive.write files =
      (files.map ZipFile.to_bytes_filerecord).flatten ++ ((centralRecords files).flatten ++
      (u32le END_OF_CENTRAL_DIR_SIGNATURE ++ u16le 0 ++ u16le 0 ++
       u64le files.length ++ u64le files.length ++
       u32le ((centralRecords files).flatten).length ++
       u32le ((files.map ZipFile.to_bytes_filerecord).flatten).length ++ u16le 0)) := by
  simp only [ZipArchive.write, chunksOf, pass1_fst, List.flatten_append, List.flatten_cons,
    List.flatten_nil, List.append_nil, trailer]
  rw [u32sub_spec _ _ (Nat.le_add_right _ _) h, Nat.add_sub_cancel_left, u32le_mod]
  simp only [List.append_assoc]

theorem c5_trailer_size_and_offset_witness :
    (([ZipFile.directory [97]].map ZipFile.to_bytes_filerecord).flatten).length +
      ((centralRecords [ZipFile.directory [97]]).flatten).length < 2 ^ 32 ∧
    ZipArchive.write [ZipFile.directory [97]] =
      ([ZipFile.directory [97]].map ZipFile.to_bytes_filerecord).flatten ++
      ((centralRecords [ZipFile.directory [97]]).flatten ++
      (u32le END_OF_CENTRAL_DIR_SIGNATURE ++ u16le 0 ++ u16le 0 ++
       u64le [ZipFile.directory [97]].length ++ u64le [ZipFile.directory [97]].length ++
       u32le ((centralRecords [ZipFile.directory [97]]).flatten).length ++
       u32le (([ZipFile.directory [97]].map ZipFile.to_bytes_filerecord).flatten).length ++
       u16le 0)) :=
  ⟨by decide, c5_trailer_size_and_offset [ZipFile.directory [97]] (by decide)⟩

/-- Claim C8: finalize against a fallible destination either fails —
aborting the whole build with a bare error and no partial archive value —
or succeeds exactly when every byte fits, in which case the destination
holds the complete serialized archive; the builder's entry list is
consumed by the call (the Rust signature takes self by value). -/
theorem c8_finalize_abort_or_complete (files : List ZipFile) (b : Nat) :
    writeE files { written := [], budget := b } =
      if (ZipArchive.write files).length ≤ b then
        Except.ok { written := ZipArchive.write files, budget := b }
      else Except.error () := by
  have h := writeAllList_spec (chunksOf files) [] b (Nat.zero_le b)
  simpa [writeE, ZipArchive.write] using h

/-- Claim C9: whenever the drain of the completion channel succeeds (all
tasks completed, in whatever order the schedule chose, and none is in
flight when serialization starts), the collected entry list is a
permutation of the submitted tasks — no entry lost, duplicated, or
corrupted — and the serializer emits exactly one local record and one
central-directory record per submitted task. -/
theorem c9_exactly_one_entry_per_task (tasks : List ZipFile) (sched : List Nat)
    (out : List ZipFile) (h : drainAll tasks sched = some out) :
    List.Perm out tasks ∧
    out.length = tasks.length ∧
    (∀ f : ZipFile, out.count f = tasks.count f) ∧
    (out.map ZipFile.to_bytes_filerecord).length = tasks.length ∧
    (centralRecords out).length = tasks.length ∧
    ∃ s : DispatchState,
      DispatchState.run { pending := tasks, channel := [] } sched = some s ∧
      s.pending = [] ∧ s.channel = out := by
  unfold drainAll at h
  cases hrun : DispatchState.run { pending := tasks, channel := [] } sched with
  | none => rw [hrun] at h; exact absurd h (by simp)
  | some s =>
    rw [hrun] at h
    have h2 : (if s.pending = [] then some s.channel else none) = some out := h
    by_cases hp : s.pending = []
    · rw [if_pos hp] at h2
      have hout : s.channel = out := Option.some.inj h2
      have hperm0 := run_perm sched _ s hrun
      rw [hp, hout] at hperm0
      simp only [List.nil_append, List.append_nil] at hperm0
      refine ⟨hperm0, hperm0.length_eq, fun f => hperm0.count_eq f, ?_, ?_, s, rfl, hp, hout⟩
      · simp [hperm0.length_eq]
      · simp only [centralRecords, List.length_map, List.length_zip, pass1_snd_length]
        simp [hperm0.length_eq]
    · rw [if_neg hp] at h2; exact absurd h2 (by simp)

theorem c9_exactly_one_entry_per_task_witness :
    drainAll [ZipFile.directory [97], ZipFile.directory [98]] [1, 0] =
      some [ZipFile.directory [98], ZipFile.directory [97]] ∧
    (List.Perm [ZipFile.directory [98], ZipFile.directory [97]]
        [ZipFile.directory [97], ZipFile.directory [98]] ∧
     [ZipFile.directory [98], ZipFile.directory [97]].length =
        [ZipFile.directory [97], ZipFile.directory [98]].length ∧
     (∀ f : ZipFile, [ZipFile.directory [98], ZipFile.directory [97]].count f =
        [ZipFile.directory [97], ZipFile.directory [98]].count f) ∧
     ([ZipFile.directory [98], ZipFile.directory [97]].map
        ZipFile.to_bytes_filerecord).length =
        [ZipFile.directory [97], ZipFile.directory [98]].length ∧
     (centralRecords [ZipFile.directory [98], ZipFile.directory [97]]).length =
        [ZipFile.directory [97], ZipFile.directory [98]].length ∧
     ∃ s : DispatchState,
       DispatchState.run
         { pending := [ZipFile.directory [97], ZipFile.directory [98]], channel := [] }
         [1, 0] = some s ∧
       s.pending = [] ∧
       s.channel = [ZipFile.directory [98], ZipFile.directory [97]]) :=
  ⟨by decide,
    c9_exactly_one_entry_per_task [ZipFile.directory [97], ZipFile.directory [98]] [1, 0]
      [ZipFile.directory [98], ZipFile.directory [97]] (by decide)⟩

/-- Claim C1 evidence: the two trailer entry-count fields are written by
files.len().to_le_bytes(), the eight little-endian bytes of a usize, not as
16-bit fields: for a one-entry archive the bytes at trailer positions 8..24
are two 8-byte encodings of 1, and the whole trailer is 34 bytes (a
16-bit-correct end-of-central-directory record would be 22 bytes, and the
archive 102 bytes instead of 114). -/
theorem c1_count_fields_are_usize_not_u16 :
    (ZipArchive.write [ZipFile.directory [100]]).length = 114 ∧
    ((ZipArchive.write [ZipFile.directory [100]]).drop 88).take 16 = u64le 1 ++ u64le 1 ∧
    (trailer 1 32 80).length = 34 := by decide

end Rayonzip
